import Mathlib

/-!
# Verification of the ckb on-chain state core

Shallow embedding of the cell model / cell providers (`core/src/cell.rs`),
the chain store (`shared/src/store.rs`) and the pool RPC entry point
(`rpc/src/module/pool.rs`).  Machine bytes are modelled as `Nat`, hashes
(`H256`) as `Nat`, and the column-oriented key/value store as a function
from column and key to an optional byte string.
-/

set_option autoImplicit false

namespace Ckb

/-! ## Byte strings and the binary codec

The repository serializes values with `bincode` and a flat serializer;
those crates are not part of the sources under verification, so the codec
is modelled from the spec ("a stable binary codec"): a concrete,
executable, self-delimiting encoding on `List Nat` byte strings. -/

abbrev Bytes := List Nat

/-- Little-endian base-256 digits of `n`, with explicit structural fuel so
that the kernel can evaluate it. -/
def natDigitsAux : Nat → Nat → List Nat
  | 0, _ => []
  | fuel + 1, n => if n = 0 then [] else n % 256 :: natDigitsAux fuel (n / 256)

/-- Little-endian base-256 digits of `n` (empty for `0`). -/
def natDigits (n : Nat) : List Nat :=
  natDigitsAux n n

/-- Value of a little-endian base-256 digit string. -/
def natFromDigits : List Nat → Nat
  | [] => 0
  | d :: ds => d + 256 * natFromDigits ds

/-- Pad a byte string with zero bytes up to length `len` (little-endian
fixed-width integers use this). -/
def padTo (len : Nat) (bs : Bytes) : Bytes :=
  bs ++ List.replicate (len - bs.length) 0

/-- Length-prefixed encoding of a natural number. -/
def encNat (n : Nat) : Bytes :=
  (natDigits n).length :: natDigits n

/-- Decoder for `encNat`; returns the value and the remaining input. -/
def decNat : Bytes → Option (Nat × Bytes)
  | [] => none
  | l :: rest =>
    if l ≤ rest.length then some (natFromDigits (rest.take l), rest.drop l)
    else none

/-- Length-prefixed raw byte string. -/
def encBytes (bs : Bytes) : Bytes :=
  encNat bs.length ++ bs

def decBytes (input : Bytes) : Option (Bytes × Bytes) :=
  match decNat input with
  | none => none
  | some (l, rest) =>
    if l ≤ rest.length then some (rest.take l, rest.drop l) else none

/-- Count-prefixed list encoding. -/
def encList {α : Type} (enc : α → Bytes) (xs : List α) : Bytes :=
  encNat xs.length ++ (xs.map enc).flatten

def decListAux {α : Type} (dec : Bytes → Option (α × Bytes)) :
    Nat → Bytes → Option (List α × Bytes)
  | 0, bs => some ([], bs)
  | n + 1, bs =>
    match dec bs with
    | none => none
    | some (x, rest) =>
      match decListAux dec n rest with
      | none => none
      | some (xs, rest') => some (x :: xs, rest')

def decList {α : Type} (dec : Bytes → Option (α × Bytes)) (bs : Bytes) :
    Option (List α × Bytes) :=
  match decNat bs with
  | none => none
  | some (n, rest) => decListAux dec n rest

/-- Tag-prefixed option encoding. -/
def encOpt {α : Type} (enc : α → Bytes) : Option α → Bytes
  | none => [0]
  | some x => 1 :: enc x

def decOpt {α : Type} (dec : Bytes → Option (α × Bytes)) : Bytes → Option (Option α × Bytes)
  | [] => none
  | t :: rest =>
    if t = 0 then some (none, rest)
    else
      match dec rest with
      | none => none
      | some (x, rest') => some (some x, rest')

/-- Run a decoder and require that it consumes the whole input. -/
def decodeFull {α : Type} (dec : Bytes → Option (α × Bytes)) (bs : Bytes) : Option α :=
  match dec bs with
  | some (x, []) => some x
  | _ => none

/-! ## Cell model (`core/src/cell.rs` and spec §3) -/

/-- `OutPoint`: `(tx_hash, index)`; the `H256` digest is modelled as `Nat`. -/
structure OutPoint where
  tx_hash : Nat
  index : Nat
  deriving DecidableEq, Repr

/-- Modelled from the spec: the reserved null outpoint used by the coinbase
input shape (`H256::zero`, `u32::MAX`). -/
def nullOutPoint : OutPoint :=
  { tx_hash := 0, index := 4294967295 }

/-- A transaction input, naming the output it spends. -/
structure CellInput where
  previous_output : OutPoint
  deriving DecidableEq, Repr

/-- `CellOutput`: capacity, data payload, lock script, optional type script.
Scripts are opaque byte strings here. -/
structure CellOutput where
  capacity : Nat
  data : Bytes
  lock : Bytes
  type_ : Option Bytes
  deriving DecidableEq, Repr

/-- `Transaction` (spec §3): version, dependency outpoints, inputs,
outputs. -/
structure Transaction where
  version : Nat
  deps : List OutPoint
  inputs : List CellInput
  outputs : List CellOutput
  deriving DecidableEq, Repr

/-- Modelled from the spec: `is_cellbase()` is true iff the transaction has
the reserved coinbase input shape (exactly one input whose
`previous_output` is the null outpoint). -/
def Transaction.is_cellbase (tx : Transaction) : Bool :=
  match tx.inputs with
  | [i] => decide (i.previous_output = nullOutPoint)
  | _ => false

def Transaction.input_pts (tx : Transaction) : List OutPoint :=
  tx.inputs.map (·.previous_output)

def Transaction.dep_pts (tx : Transaction) : List OutPoint :=
  tx.deps

/-- `CellMeta`: a cell output together with lookup metadata. -/
structure CellMeta where
  cell_output : CellOutput
  block_number : Option Nat
  cellbase : Bool
  deriving DecidableEq, Repr

def CellMeta.capacity (m : CellMeta) : Nat :=
  m.cell_output.capacity

/-- `CellStatus`: Live / Dead / Unknown. -/
inductive CellStatus where
  | Live (meta : CellMeta)
  | Dead
  | Unknown
  deriving DecidableEq, Repr

/-- `CellStatus::live_output`. -/
def CellStatus.live_output (cell_output : CellOutput) (block_number : Option Nat)
    (cellbase : Bool) : CellStatus :=
  CellStatus.Live { cell_output := cell_output, block_number := block_number,
                    cellbase := cellbase }

/-- `ResolvedTransaction`. -/
structure ResolvedTransaction where
  transaction : Transaction
  dep_cells : List CellStatus
  input_cells : List CellStatus
  deriving DecidableEq, Repr

/-! ## Cell providers

The `CellProvider` capability is a single operation
`cell : OutPoint → CellStatus`; we model a provider as that function
(`get_cell_status` is a trait-default alias for `cell`). -/

abbrev Provider := OutPoint → CellStatus

/-- `CellProvider::resolve_transaction`. -/
def resolve_transaction (p : Provider) (tx : Transaction) : ResolvedTransaction :=
  { transaction := tx
    input_cells := if tx.is_cellbase then [] else tx.input_pts.map p
    dep_cells := tx.dep_pts.map p }

/-- `OverlayCellProvider::cell`: the overlay is authoritative unless it
answers `Unknown`. -/
def OverlayCellProvider.cell (overlay cell_provider : Provider) (o : OutPoint) : CellStatus :=
  match overlay o with
  | CellStatus.Live co => CellStatus.Live co
  | CellStatus.Dead => CellStatus.Dead
  | CellStatus.Unknown => cell_provider o

/-! ## Association-list maps

`FnvHashMap` is modelled as an association list where an insert prepends
and lookup returns the first match, so a later insert shadows an earlier
one (the override semantics of `HashMap`). -/

def alistLookup {κ ν : Type} [DecidableEq κ] : List (κ × ν) → κ → Option ν
  | [], _ => none
  | (k', v) :: m, k => if k' = k then some v else alistLookup m k

/-- `entry(k).and_modify(|c| *c += 1).or_default()`: the first occurrence
of a key stores `0`, each further occurrence increments. -/
def bump {κ : Type} [DecidableEq κ] (m : List (κ × Nat)) (k : κ) : List (κ × Nat) :=
  match alistLookup m k with
  | some c => (k, c + 1) :: m
  | none => (k, 0) :: m

/-! ## Structure codecs and content hashes -/

def encOutPoint (o : OutPoint) : Bytes :=
  encNat o.tx_hash ++ encNat o.index

def decOutPoint (bs : Bytes) : Option (OutPoint × Bytes) :=
  match decNat bs with
  | none => none
  | some (h, r1) =>
    match decNat r1 with
    | none => none
    | some (i, r2) => some ({ tx_hash := h, index := i }, r2)

def encInput (i : CellInput) : Bytes :=
  encOutPoint i.previous_output

def decInput (bs : Bytes) : Option (CellInput × Bytes) :=
  match decOutPoint bs with
  | none => none
  | some (o, r) => some ({ previous_output := o }, r)

def encOutput (c : CellOutput) : Bytes :=
  encNat c.capacity ++ encBytes c.data ++ encBytes c.lock ++ encOpt encBytes c.type_

def decOutput (bs : Bytes) : Option (CellOutput × Bytes) :=
  match decNat bs with
  | none => none
  | some (cap, r1) =>
    match decBytes r1 with
    | none => none
    | some (d, r2) =>
      match decBytes r2 with
      | none => none
      | some (l, r3) =>
        match decOpt decBytes r3 with
        | none => none
        | some (t, r4) => some ({ capacity := cap, data := d, lock := l, type_ := t }, r4)

/-- Modelled from the spec: the stable binary codec for transactions used
by the store's flat-packed bodies. -/
def encTransaction (tx : Transaction) : Bytes :=
  encNat tx.version ++ encList encOutPoint tx.deps ++ encList encInput tx.inputs ++
    encList encOutput tx.outputs

def decTransaction (bs : Bytes) : Option (Transaction × Bytes) :=
  match decNat bs with
  | none => none
  | some (v, r1) =>
    match decList decOutPoint r1 with
    | none => none
    | some (ds, r2) =>
      match decList decInput r2 with
      | none => none
      | some (is, r3) =>
        match decList decOutput r3 with
        | none => none
        | some (os, r4) =>
          some ({ version := v, deps := ds, inputs := is, outputs := os }, r4)

/-- The `H256` content digest of a transaction, modelled as the value of
its encoding (an injective stand-in for the cryptographic hash). -/
def Transaction.hash (tx : Transaction) : Nat :=
  natFromDigits (encTransaction tx)

/-- Block header (the fields the store and providers consult: number,
timestamp, difficulty). -/
structure Header where
  number : Nat
  timestamp : Nat
  difficulty : Nat
  deriving DecidableEq, Repr

def encHeader (h : Header) : Bytes :=
  encNat h.number ++ encNat h.timestamp ++ encNat h.difficulty

def decHeader (bs : Bytes) : Option (Header × Bytes) :=
  match decNat bs with
  | none => none
  | some (n, r1) =>
    match decNat r1 with
    | none => none
    | some (t, r2) =>
      match decNat r2 with
      | none => none
      | some (d, r3) => some ({ number := n, timestamp := t, difficulty := d }, r3)

/-- The `H256` content digest of a header. -/
def Header.hash (h : Header) : Nat :=
  natFromDigits (encHeader h)

/-- An uncle block (opaque to this core beyond its header). -/
structure UncleBlock where
  header : Header
  deriving DecidableEq, Repr

def encUncle (u : UncleBlock) : Bytes :=
  encHeader u.header

def decUncle (bs : Bytes) : Option (UncleBlock × Bytes) :=
  match decHeader bs with
  | none => none
  | some (h, r) => some ({ header := h }, r)

/-- `Block`: header, uncles, ordered transactions, proposal ids
(`ProposalShortId` modelled as `Nat`). -/
structure Block where
  header : Header
  uncles : List UncleBlock
  transactions : List Transaction
  proposals : List Nat
  deriving DecidableEq, Repr

/-! ## BlockCellProvider (`core/src/cell.rs` lines 135-190) -/

/-- All `previous_output`s of all inputs of the block, in tx-major
iteration order (the order `BlockCellProvider::new` visits them). -/
def allInputPts (b : Block) : List OutPoint :=
  (b.transactions.map fun tx => tx.inputs.map (·.previous_output)).flatten

/-- Number of occurrences of an outpoint among a block's inputs. -/
def occCount (b : Block) (o : OutPoint) : Nat :=
  (allInputPts b).countP fun p => decide (p = o)

/-- `duplicate_inputs_counter` as built by `BlockCellProvider::new`. -/
def dupCounter (b : Block) : List (OutPoint × Nat) :=
  (allInputPts b).foldl bump []

/-- `output_indices`: tx hash to positional index, collected over the
enumerated transactions (later entries override earlier ones). -/
def outputIndices (b : Block) : List (Nat × Nat) :=
  b.transactions.enum.foldl (fun m p => (Transaction.hash p.2, p.1) :: m) []

/-- The `output_indices` branch of `BlockCellProvider::cell`: synthesize
`Live` for an output created by this block, else `Unknown`. -/
def BlockCellProvider.outputLookup (b : Block) (o : OutPoint) : CellStatus :=
  match alistLookup (outputIndices b) o.tx_hash with
  | some i =>
    -- `self.block.transactions()[*i]`; `i` is in range by construction
    match b.transactions[i]? with
    | some tx =>
      match tx.outputs[o.index]? with
      | some x => CellStatus.live_output x (some b.header.number) (decide (i = 0))
      | none => CellStatus.Unknown
    | none => CellStatus.Unknown
  | none => CellStatus.Unknown

/-- `BlockCellProvider::cell`. -/
def BlockCellProvider.cell (b : Block) (o : OutPoint) : CellStatus :=
  if (alistLookup (dupCounter b) o).map (fun c => decide (c > 0)) = some true then
    CellStatus.Dead
  else
    BlockCellProvider.outputLookup b o

/-! ## Capacity arithmetic (`occupied_capacity`, modelled from the spec)

`Capacity` is an unsigned 64-bit quantity with checked arithmetic; sums
that leave `[0, 2^64)` are an `ArithmeticOverflow` error, never a wrap. -/

inductive CapError where
  | overflow
  deriving DecidableEq, Repr

/-- Modelled from the spec: `Capacity::safe_add` (checked u64 addition). -/
def safe_add (a b : Nat) : Except CapError Nat :=
  if a + b < 2 ^ 64 then Except.ok (a + b) else Except.error CapError.overflow

/-- Modelled from the spec: `Capacity::safe_sub` (checked u64 subtraction). -/
def safe_sub (a b : Nat) : Except CapError Nat :=
  if b ≤ a then Except.ok (a - b) else Except.error CapError.overflow

/-- `Iterator::try_fold` specialised to checked capacity sums. -/
def tryFold (f : Nat → Nat → Except CapError Nat) (init : Nat) :
    List Nat → Except CapError Nat
  | [] => Except.ok init
  | x :: xs =>
    match f init x with
    | Except.ok acc => tryFold f acc xs
    | Except.error e => Except.error e

/-- Modelled from the spec: `Transaction::outputs_capacity`, the checked
sum of the output capacities. -/
def Transaction.outputs_capacity (tx : Transaction) : Except CapError Nat :=
  tryFold safe_add 0 (tx.outputs.map (·.capacity))

/-- The capacities of the `Live` input cells, in order (the
`filter_map` of `inputs_capacity`). -/
def liveCapacities (cells : List CellStatus) : List Nat :=
  cells.filterMap fun cs =>
    match cs with
    | CellStatus.Live meta => some meta.capacity
    | _ => none

/-- `ResolvedTransaction::inputs_capacity`. -/
def ResolvedTransaction.inputs_capacity (r : ResolvedTransaction) : Except CapError Nat :=
  tryFold safe_add 0 (liveCapacities r.input_cells)

/-- `ResolvedTransaction::fee`. -/
def ResolvedTransaction.fee (r : ResolvedTransaction) : Except CapError Nat :=
  r.inputs_capacity.bind fun x =>
    r.transaction.outputs_capacity.bind fun y =>
      if x > y then safe_sub x y else Except.ok 0

/-- `ResolvedTransaction::is_cellbase`. -/
def ResolvedTransaction.is_cellbase (r : ResolvedTransaction) : Bool :=
  r.input_cells.isEmpty

/-- The sum of the `Live` input capacities. -/
def liveSum (r : ResolvedTransaction) : Nat :=
  (liveCapacities r.input_cells).sum

/-- The sum of the declared output capacities. -/
def outSum (tx : Transaction) : Nat :=
  (tx.outputs.map (·.capacity)).sum

/-! ## Chain store (`shared/src/store.rs`)

The raw key/value engine is out of scope (spec §1); a committed store is
modelled as a function from column and key to an optional byte string.
The engine-error layer of the two primitive reads (`get`, `partial_get`)
is modelled separately below for the failure-model claims. -/

/-- The column families of the store. -/
inductive Col where
  | header        -- COLUMN_BLOCK_HEADER
  | uncle         -- COLUMN_BLOCK_UNCLE
  | proposalIds   -- COLUMN_BLOCK_PROPOSAL_IDS
  | body          -- COLUMN_BLOCK_BODY
  | bodyAddrs     -- COLUMN_BLOCK_TRANSACTION_ADDRESSES
  | ext           -- COLUMN_EXT
  | index         -- COLUMN_INDEX
  | txAddr        -- COLUMN_TRANSACTION_ADDR
  | meta          -- COLUMN_META
  deriving DecidableEq, Repr

def Store : Type := Col → Bytes → Option Bytes

def emptyStore : Store := fun _ _ => none

def storeInsert (s : Store) (c : Col) (k v : Bytes) : Store :=
  fun c' k' => if c' = c ∧ k' = k then some v else s c' k'

def storeDelete (s : Store) (c : Col) (k : Bytes) : Store :=
  fun c' k' => if c' = c ∧ k' = k then none else s c' k'

/-- One write of a `StoreBatch` (the engine's `DbBatch` records inserts
and deletes and applies them atomically on `commit`). -/
inductive BatchOp where
  | ins (c : Col) (k v : Bytes)
  | del (c : Col) (k : Bytes)
  deriving DecidableEq, Repr

def applyOp (s : Store) : BatchOp → Store
  | BatchOp.ins c k v => storeInsert s c k v
  | BatchOp.del c k => storeDelete s c k

/-- `StoreBatch::commit`: apply the batched writes in order, atomically. -/
def commit (s : Store) (ops : List BatchOp) : Store :=
  ops.foldl applyOp s

/-- `H256::as_bytes`: the 32-byte little-endian key form of a hash. -/
def h256Key (h : Nat) : Bytes :=
  padTo 32 (natDigits (h % 2 ^ 256))

/-- `BlockNumber::to_le_bytes`: the 8-byte little-endian key form. -/
def numberKey (n : Nat) : Bytes :=
  padTo 8 (natDigits (n % 2 ^ 64))

/-- `flat_serializer::Address`: a byte window of the flat-packed body. -/
structure Address where
  offset : Nat
  length : Nat
  deriving DecidableEq, Repr

def encAddress (a : Address) : Bytes :=
  encNat a.offset ++ encNat a.length

def decAddress (bs : Bytes) : Option (Address × Bytes) :=
  match decNat bs with
  | none => none
  | some (o, r1) =>
    match decNat r1 with
    | none => none
    | some (l, r2) => some ({ offset := o, length := l }, r2)

/-- `extras::TransactionAddress`. -/
structure TransactionAddress where
  block_hash : Nat
  offset : Nat
  length : Nat
  deriving DecidableEq, Repr

def encTxAddress (a : TransactionAddress) : Bytes :=
  encNat a.block_hash ++ encNat a.offset ++ encNat a.length

/-- Cumulative byte windows of a list of chunks starting at `off`. -/
def flatAddressesAux (off : Nat) : List Bytes → List Address
  | [] => []
  | c :: cs => { offset := off, length := c.length } :: flatAddressesAux (off + c.length) cs

/-- Modelled from the spec: `flat_serializer::serialized_addresses` — the
per-transaction byte windows of the flat-packed body. -/
def serialized_addresses (txs : List Transaction) : List Address :=
  flatAddressesAux 0 (txs.map encTransaction)

/-- Modelled from the spec: `flat_serializer::serialize` — transactions
concatenated with no framing, together with their address windows. -/
def flat_serialize (txs : List Transaction) : Bytes × List Address :=
  ((txs.map encTransaction).flatten, serialized_addresses txs)

/-- `DefaultStoreBatch::insert_block`: header, uncles, proposal ids, flat
body and address vector, all keyed by the block hash. -/
def insertBlock (b : Block) : List BatchOp :=
  let hk := h256Key b.header.hash
  [BatchOp.ins Col.header hk (encHeader b.header),
   BatchOp.ins Col.uncle hk (encList encUncle b.uncles),
   BatchOp.ins Col.proposalIds hk (encList encNat b.proposals),
   BatchOp.ins Col.body hk (flat_serialize b.transactions).1,
   BatchOp.ins Col.bodyAddrs hk (encList encAddress (flat_serialize b.transactions).2)]

/-- `DefaultStoreBatch::attach_block`: a `TX_ADDR` entry per transaction
(block hash plus that transaction's flat-serialization window) and the two
bidirectional `INDEX` entries. -/
def attachBlock (b : Block) : List BatchOp :=
  ((b.transactions.zip (serialized_addresses b.transactions)).map fun p =>
    BatchOp.ins Col.txAddr (h256Key p.1.hash)
      (encTxAddress { block_hash := b.header.hash, offset := p.2.offset,
                      length := p.2.length })) ++
  [BatchOp.ins Col.index (numberKey b.header.number) (h256Key b.header.hash),
   BatchOp.ins Col.index (h256Key b.header.hash) (numberKey b.header.number)]

/-- `DefaultStoreBatch::detach_block`: delete every `TX_ADDR` entry of the
block's transactions and both `INDEX` entries. -/
def detachBlock (b : Block) : List BatchOp :=
  (b.transactions.map fun tx => BatchOp.del Col.txAddr (h256Key tx.hash)) ++
  [BatchOp.del Col.index (numberKey b.header.number),
   BatchOp.del Col.index (h256Key b.header.hash)]

/-- Does `detach_block b` touch column `c` at key `k`? (Exactly the
`TX_ADDR` keys of the block's transactions and the two `INDEX` keys.) -/
def detachTouches (b : Block) (c : Col) (k : Bytes) : Bool :=
  (decide (c = Col.txAddr) &&
    (b.transactions.map fun tx => h256Key tx.hash).any (fun kk => decide (kk = k))) ||
  (decide (c = Col.index) &&
    (decide (k = numberKey b.header.number) || decide (k = h256Key b.header.hash)))

/-- Does a batch write touch column `c` at key `k`? -/
def opTouches (op : BatchOp) (c : Col) (k : Bytes) : Bool :=
  match op with
  | BatchOp.ins c' k' _ => decide (c' = c) && decide (k' = k)
  | BatchOp.del c' k' => decide (c' = c) && decide (k' = k)

/-! ### Typed reads

Reads that `expect` well-formed bytes are modelled in `Except String`:
`Except.error msg` is the process abort of a failed `expect` (a
store-integrity fault, fatal per spec §7), `Except.ok none` is key
absence. -/

/-- `ChainKVStore::get_header`. -/
def getHeader (s : Store) (h : Nat) : Except String (Option Header) :=
  match s Col.header (h256Key h) with
  | none => Except.ok none
  | some raw =>
    match decodeFull decHeader raw with
    | some hd => Except.ok (some hd)
    | none => Except.error "deserialize header should be ok"

/-- `ChainKVStore::get_block_uncles`. -/
def getBlockUncles (s : Store) (h : Nat) : Except String (Option (List UncleBlock)) :=
  match s Col.uncle (h256Key h) with
  | none => Except.ok none
  | some raw =>
    match decodeFull (decList decUncle) raw with
    | some us => Except.ok (some us)
    | none => Except.error "deserialize uncle should be ok"

/-- `ChainKVStore::get_block_proposal_txs_ids`. -/
def getBlockProposalTxsIds (s : Store) (h : Nat) : Except String (Option (List Nat)) :=
  match s Col.proposalIds (h256Key h) with
  | none => Except.ok none
  | some raw =>
    match decodeFull (decList decNat) raw with
    | some ps => Except.ok (some ps)
    | none => Except.error "deserialize proposal txs id should be ok"

/-- `serialized_body.get(offset..offset+length)`: `some` slice iff the
window lies inside the stored body bytes, `none` otherwise. -/
def sliceOpt (body : Bytes) (a : Address) : Option Bytes :=
  if a.offset + a.length ≤ body.length then some ((body.drop a.offset).take a.length)
  else none

/-- `.map(TransactionBuilder::build)` over the collected slices: each
slice must decode; a failure is a fatal deserialization fault. -/
def decodeAll : List Bytes → Option (List Transaction)
  | [] => some []
  | bs :: rest =>
    match decodeFull decTransaction bs with
    | none => none
    | some tx =>
      match decodeAll rest with
      | none => none
      | some txs => some (tx :: txs)

/-- `ChainKVStore::get_block_body`: read the address vector, read the flat
body, slice each recorded window (silently dropping windows that fall
outside the body), decode the surviving slices. -/
def getBlockBody (s : Store) (h : Nat) : Except String (Option (List Transaction)) :=
  match s Col.bodyAddrs (h256Key h) with
  | none => Except.ok none
  | some rawAddrs =>
    match decodeFull (decList decAddress) rawAddrs with
    | none => Except.error "deserialize address should be ok"
    | some addresses =>
      match s Col.body (h256Key h) with
      | none => Except.ok none
      | some bodyBytes =>
        match decodeAll (addresses.filterMap (sliceOpt bodyBytes)) with
        | none => Except.error "deserialize transaction should be ok"
        | some txs => Except.ok (some txs)

/-- `ChainKVStore::get_block`: header plus the three `expect`ed companion
reads, rebuilt into a block. -/
def getBlock (s : Store) (h : Nat) : Except String (Option Block) :=
  match getHeader s h with
  | Except.error e => Except.error e
  | Except.ok none => Except.ok none
  | Except.ok (some hd) =>
    match getBlockBody s h with
    | Except.error e => Except.error e
    | Except.ok none => Except.error "block transactions must be stored"
    | Except.ok (some txs) =>
      match getBlockUncles s h with
      | Except.error e => Except.error e
      | Except.ok none => Except.error "block uncles must be stored"
      | Except.ok (some us) =>
        match getBlockProposalTxsIds s h with
        | Except.error e => Except.error e
        | Except.ok none => Except.error "block proposal_ids must be stored"
        | Except.ok (some ps) =>
          Except.ok (some { header := hd, uncles := us, transactions := txs,
                            proposals := ps })

/-! ### Primitive reads over a fallible engine
(`shared/src/store.rs` lines 29-38)

`KeyValueDB::read` / `partial_read` return `Result<Option<Vec<u8>>, Error>`;
`ChainKVStore::get` and `partial_get` unwrap them with
`.expect("db operation should be ok")`.  The outcome type distinguishes a
returned value, a storage error propagated to the caller, and a panic
(process termination); the source's `expect` produces the third. -/

/-- The underlying key/value engine: each primitive read either yields an
optional value or reports an engine error. -/
structure DbModel where
  read : Col → Bytes → Except String (Option Bytes)
  rangeRead : Col → Bytes → Nat → Nat → Except String (Option Bytes)

inductive ReadOutcome (α : Type) where
  | val (v : α)
  | storageError (e : String)
  | panic (msg : String)
  deriving DecidableEq, Repr

/-- `ChainKVStore::get`. -/
def ChainKVStore.get (db : DbModel) (c : Col) (k : Bytes) : ReadOutcome (Option Bytes) :=
  match db.read c k with
  | Except.ok v => ReadOutcome.val v
  | Except.error _ => ReadOutcome.panic "db operation should be ok"

/-- `ChainKVStore::partial_get` (a range read on the value). -/
def ChainKVStore.rangeGet (db : DbModel) (c : Col) (k : Bytes) (lo hi : Nat) :
    ReadOutcome (Option Bytes) :=
  match db.rangeRead c k lo hi with
  | Except.ok v => ReadOutcome.val v
  | Except.error _ => ReadOutcome.panic "db operation should be ok"

/-! ## Pool RPC (`rpc/src/module/pool.rs`)

`send_transaction` parses, resolves and verifies the transaction, then
enqueues it into the pool and broadcasts it only when it was newly
enqueued.  The tx pool lives outside the verified sources; per the
source's comment, `enqueue_tx` returns `false` for a duplicate. -/

/-- The pool, as the set of hashes of its entries. -/
abbrev TxPool := List Nat

/-- Modelled from the spec: `TxPool::enqueue_tx` returns whether the entry
was newly enqueued; `false` means the transaction was already present. -/
def enqueueTx (pool : TxPool) (h : Nat) : TxPool × Bool :=
  if pool.contains h then (pool, false) else (h :: pool, true)

/-- The observable result of `send_transaction`: the RPC reply, the pool
afterwards, and whether the transaction was broadcast to the network. -/
structure SendTxResult where
  reply : Except String Nat
  pool : TxPool
  broadcasted : Bool
  deriving Repr

/-- `PoolRpcImpl::send_transaction`, after JSON parsing, with the
resolve-and-verify step abstracted as its outcome `verifyResult` (the
cycle count on success). -/
def sendTransaction (verifyResult : Except String Nat) (tx : Transaction)
    (pool : TxPool) : SendTxResult :=
  match verifyResult with
  | Except.error err => { reply := Except.error err, pool := pool, broadcasted := false }
  | Except.ok _cycles =>
    let txHash := tx.hash
    let enq := enqueueTx pool txHash
    if ¬enq.2 then
      -- Duplicate tx
      { reply := Except.ok txHash, pool := enq.1, broadcasted := false }
    else
      { reply := Except.ok txHash, pool := enq.1, broadcasted := true }

/-! ## Concrete example data for counterexamples and witnesses -/

/-- An outpoint no transaction of the examples produces. -/
def oEx : OutPoint := { tx_hash := 999, index := 0 }

/-- A transaction spending `oEx` exactly once. -/
def txSingleSpend : Transaction :=
  { version := 0, deps := [], inputs := [{ previous_output := oEx }], outputs := [] }

/-- A block whose only transaction spends `oEx` exactly once. -/
def blockSingleSpend : Block :=
  { header := { number := 1, timestamp := 10, difficulty := 1 },
    uncles := [], transactions := [txSingleSpend], proposals := [] }

/-- A transaction spending `oEx` twice. -/
def txDoubleSpend : Transaction :=
  { version := 0, deps := [],
    inputs := [{ previous_output := oEx }, { previous_output := oEx }], outputs := [] }

/-- A block in which `oEx` is spent by two inputs. -/
def blockDoubleSpend : Block :=
  { header := { number := 2, timestamp := 20, difficulty := 1 },
    uncles := [], transactions := [txDoubleSpend], proposals := [] }

/-- A small block used for the store examples. -/
def blockEx : Block :=
  { header := { number := 3, timestamp := 30, difficulty := 7 },
    uncles := [{ header := { number := 2, timestamp := 25, difficulty := 6 } }],
    transactions := [txSingleSpend], proposals := [5, 9] }

/-- A store that already holds a `TX_ADDR` entry for `blockEx`'s
transaction before any attach. -/
def storePreTxAddr : Store :=
  storeInsert emptyStore Col.txAddr (h256Key txSingleSpend.hash) [42]

/-- An engine whose every primitive read reports an I/O error. -/
def errDb : DbModel :=
  { read := fun _ _ => Except.error "io error",
    rangeRead := fun _ _ _ _ => Except.error "io error" }

/-- A pool that already contains the example transaction. -/
def poolEx : TxPool := [txSingleSpend.hash]

/-- The windows of the `claim_C9` witness store: one valid window and one
that lies beyond the stored body. -/
def addrsEx : List Address :=
  [{ offset := 0, length := (encTransaction txSingleSpend).length },
   { offset := 1000, length := 50 }]

def bodyEx : Bytes := encTransaction txSingleSpend

/-- A store holding a body and an address vector with an out-of-range
window. -/
def storeBodyEx : Store :=
  storeInsert
    (storeInsert emptyStore Col.bodyAddrs (h256Key 77) (encList encAddress addrsEx))
    Col.body (h256Key 77) bodyEx

/-! # Theorems -/

/-! ## Codec round-trips -/

theorem natFromDigits_natDigitsAux :
    ∀ (fuel n : Nat), n ≤ fuel → natFromDigits (natDigitsAux fuel n) = n := by
  intro fuel
  induction fuel with
  | zero =>
    intro n h
    have : n = 0 := Nat.le_zero.mp h
    subst this
    rfl
  | succ f ih =>
    intro n h
    by_cases hn : n = 0
    · subst hn; rfl
    · have hlt : n / 256 < n := Nat.div_lt_self (Nat.pos_of_ne_zero hn) (by norm_num)
      have hle : n / 256 ≤ f := by omega
      simp only [natDigitsAux, if_neg hn, natFromDigits]
      rw [ih (n / 256) hle]
      exact Nat.mod_add_div n 256

theorem natFromDigits_natDigits (n : Nat) : natFromDigits (natDigits n) = n :=
  natFromDigits_natDigitsAux n n (Nat.le_refl n)

theorem decNat_encNat (n : Nat) (r : Bytes) : decNat (encNat n ++ r) = some (n, r) := by
  simp only [encNat, decNat, List.cons_append]
  rw [if_pos (by simp)]
  rw [List.take_left, List.drop_left, natFromDigits_natDigits]

theorem decBytes_encBytes (bs r : Bytes) : decBytes (encBytes bs ++ r) = some (bs, r) := by
  simp only [encBytes, decBytes, List.append_assoc]
  rw [decNat_encNat]
  simp only []
  rw [if_pos (by simp), List.take_left, List.drop_left]

theorem decListAux_encoded {α : Type} (dec : Bytes → Option (α × Bytes)) (enc : α → Bytes)
    (hdec : ∀ x r, dec (enc x ++ r) = some (x, r)) :
    ∀ (xs : List α) (r : Bytes),
      decListAux dec xs.length ((xs.map enc).flatten ++ r) = some (xs, r) := by
  intro xs
  induction xs with
  | nil => intro r; simp [decListAux]
  | cons x xs ih =>
    intro r
    simp only [List.map_cons, List.flatten_cons, List.length_cons, decListAux,
      List.append_assoc]
    rw [hdec]
    simp [ih]

theorem decList_encList {α : Type} (dec : Bytes → Option (α × Bytes)) (enc : α → Bytes)
    (hdec : ∀ x r, dec (enc x ++ r) = some (x, r)) (xs : List α) (r : Bytes) :
    decList dec (encList enc xs ++ r) = some (xs, r) := by
  simp only [encList, decList, List.append_assoc]
  rw [decNat_encNat]
  exact decListAux_encoded dec enc hdec xs r

theorem decOpt_encOpt {α : Type} (dec : Bytes → Option (α × Bytes)) (enc : α → Bytes)
    (hdec : ∀ x r, dec (enc x ++ r) = some (x, r)) (x : Option α) (r : Bytes) :
    decOpt dec (encOpt enc x ++ r) = some (x, r) := by
  cases x with
  | none => rfl
  | some v =>
    simp only [encOpt, decOpt, List.cons_append]
    rw [if_neg (by norm_num), hdec]

theorem decOutPoint_enc (o : OutPoint) (r : Bytes) :
    decOutPoint (encOutPoint o ++ r) = some (o, r) := by
  simp only [encOutPoint, decOutPoint, List.append_assoc]
  rw [decNat_encNat]
  simp only []
  rw [decNat_encNat]

theorem decInput_enc (i : CellInput) (r : Bytes) :
    decInput (encInput i ++ r) = some (i, r) := by
  simp only [encInput, decInput]
  rw [decOutPoint_enc]

theorem decOutput_enc (c : CellOutput) (r : Bytes) :
    decOutput (encOutput c ++ r) = some (c, r) := by
  simp only [encOutput, decOutput, List.append_assoc]
  rw [decNat_encNat]
  simp only []
  rw [decBytes_encBytes]
  simp only []
  rw [decBytes_encBytes]
  simp only []
  rw [decOpt_encOpt decBytes encBytes decBytes_encBytes]

theorem decTransaction_enc (tx : Transaction) (r : Bytes) :
    decTransaction (encTransaction tx ++ r) = some (tx, r) := by
  simp only [encTransaction, decTransaction, List.append_assoc]
  rw [decNat_encNat]
  simp only []
  rw [decList_encList decOutPoint encOutPoint decOutPoint_enc]
  simp only []
  rw [decList_encList decInput encInput decInput_enc]
  simp only []
  rw [decList_encList decOutput encOutput decOutput_enc]

theorem decHeader_enc (h : Header) (r : Bytes) :
    decHeader (encHeader h ++ r) = some (h, r) := by
  simp only [encHeader, decHeader, List.append_assoc]
  rw [decNat_encNat]
  simp only []
  rw [decNat_encNat]
  simp only []
  rw [decNat_encNat]

theorem decUncle_enc (u : UncleBlock) (r : Bytes) :
    decUncle (encUncle u ++ r) = some (u, r) := by
  simp only [encUncle, decUncle]
  rw [decHeader_enc]

theorem decAddress_enc (a : Address) (r : Bytes) :
    decAddress (encAddress a ++ r) = some (a, r) := by
  simp only [encAddress, decAddress, List.append_assoc]
  rw [decNat_encNat]
  simp only []
  rw [decNat_encNat]

theorem decodeFull_encoded {α : Type} (dec : Bytes → Option (α × Bytes)) (enc : α → Bytes)
    (hdec : ∀ x r, dec (enc x ++ r) = some (x, r)) (x : α) :
    decodeFull dec (enc x) = some x := by
  have h := hdec x []
  rw [List.append_nil] at h
  simp [decodeFull, h]

/-! ## Capacity sums -/

/-- `try_fold` with `safe_add` succeeds exactly when the total stays below
`2^64`, and then computes the plain sum. -/
theorem tryFold_safe_add (caps : List Nat) : ∀ acc : Nat, acc < 2 ^ 64 →
    tryFold safe_add acc caps =
      if acc + caps.sum < 2 ^ 64 then Except.ok (acc + caps.sum)
      else Except.error CapError.overflow := by
  induction caps with
  | nil =>
    intro acc hacc
    simp only [tryFold, List.sum_nil, Nat.add_zero]
    rw [if_pos hacc]
  | cons c cs ih =>
    intro acc _
    simp only [tryFold, safe_add]
    by_cases h : acc + c < 2 ^ 64
    · rw [if_pos h]
      simp only []
      rw [ih (acc + c) h]
      simp only [List.sum_cons]
      by_cases h2 : acc + c + cs.sum < 2 ^ 64
      · rw [if_pos h2, if_pos (by omega)]
        congr 1
        omega
      · rw [if_neg h2, if_neg (by omega)]
    · rw [if_neg h]
      simp only [List.sum_cons]
      rw [if_neg (by omega)]

/-! ## Claims about the cell providers and the resolver -/

/-- C2: the overlay composition answers with the top provider whenever the
top provider has an opinion (its `Live` metadata passed through
unchanged), and with the bottom provider exactly on `Unknown`. -/
theorem claim_C2 (a b : Provider) (o : OutPoint) :
    OverlayCellProvider.cell a b o =
      if a o = CellStatus.Unknown then b o else a o := by
  unfold OverlayCellProvider.cell
  cases h : a o <;> simp [h]

/-- C4: `resolve_transaction` produces no input cells for a cellbase and
otherwise one status per input, positionally the provider's answer for
that input's `previous_output`; dependencies are resolved positionally in
declared order. -/
theorem claim_C4 (p : Provider) (tx : Transaction) :
    (resolve_transaction p tx).input_cells.length
        = (if tx.is_cellbase then 0 else tx.inputs.length)
  ∧ (resolve_transaction p tx).dep_cells.length = tx.dep_pts.length
  ∧ (∀ i : Nat, (resolve_transaction p tx).input_cells[i]?
        = if tx.is_cellbase then none else (tx.input_pts[i]?).map p)
  ∧ (∀ j : Nat, (resolve_transaction p tx).dep_cells[j]? = (tx.dep_pts[j]?).map p) := by
  unfold resolve_transaction
  by_cases hcb : tx.is_cellbase <;>
    simp [hcb, Transaction.input_pts, List.getElem?_map]

/-- C5: `inputs_capacity` is the checked sum over exactly the `Live`
inputs (non-`Live` inputs contribute nothing and are no error), and `fee`
is `max(0, inputs − outputs)` under checked arithmetic: an
`ArithmeticOverflow` error whenever either checked sum leaves the 64-bit
range, never a silent wrap. -/
theorem claim_C5 (r : ResolvedTransaction) :
    r.inputs_capacity =
      (if liveSum r < 2 ^ 64 then Except.ok (liveSum r)
       else Except.error CapError.overflow)
  ∧ r.fee =
      (if liveSum r < 2 ^ 64 ∧ outSum r.transaction < 2 ^ 64 then
        Except.ok (liveSum r - outSum r.transaction)
       else Except.error CapError.overflow) := by
  have hin : r.inputs_capacity =
      (if liveSum r < 2 ^ 64 then Except.ok (liveSum r)
       else Except.error CapError.overflow) := by
    unfold ResolvedTransaction.inputs_capacity
    rw [tryFold_safe_add _ 0 (by norm_num)]
    simp [liveSum]
  refine ⟨hin, ?_⟩
  have hout : r.transaction.outputs_capacity =
      (if outSum r.transaction < 2 ^ 64 then Except.ok (outSum r.transaction)
       else Except.error CapError.overflow) := by
    unfold Transaction.outputs_capacity
    rw [tryFold_safe_add _ 0 (by norm_num)]
    simp [outSum]
  unfold ResolvedTransaction.fee
  rw [hin, hout]
  by_cases h1 : liveSum r < 2 ^ 64
  · rw [if_pos h1]
    by_cases h2 : outSum r.transaction < 2 ^ 64
    · rw [if_pos h2, if_pos ⟨h1, h2⟩]
      simp only [Except.bind]
      by_cases h3 : liveSum r > outSum r.transaction
      · rw [if_pos h3]
        simp [safe_sub, Nat.le_of_lt h3]
      · rw [if_neg h3]
        have : liveSum r - outSum r.transaction = 0 := by omega
        rw [this]
    · rw [if_neg h2]
      rw [if_neg (fun hc : liveSum r < 2 ^ 64 ∧ outSum r.transaction < 2 ^ 64 => h2 hc.2)]
      simp [Except.bind]
  · rw [if_neg h1]
    rw [if_neg (fun hc : liveSum r < 2 ^ 64 ∧ outSum r.transaction < 2 ^ 64 => h1 hc.1)]
    simp [Except.bind]

/-! ## The block provider's duplicate-input counter -/

theorem alistLookup_bump_ne {κ : Type} [DecidableEq κ] (m : List (κ × Nat)) (a k : κ)
    (h : a ≠ k) : alistLookup (bump m a) k = alistLookup m k := by
  unfold bump
  cases alistLookup m a <;> simp [alistLookup, h]

/-- Folding `bump` over a list of keys: a key never seen is absent; a key
seen `n ≥ 1` times is recorded with `n − 1` (the first occurrence stores
the default `0`, later ones increment). -/
theorem foldl_bump_lookup {κ : Type} [DecidableEq κ] (l : List κ) :
    ∀ (m : List (κ × Nat)) (k : κ),
      alistLookup (l.foldl bump m) k =
        match alistLookup m k with
        | some c => some (c + l.countP (fun p => decide (p = k)))
        | none =>
          if l.countP (fun p => decide (p = k)) = 0 then none
          else some (l.countP (fun p => decide (p = k)) - 1) := by
  induction l with
  | nil =>
    intro m k
    cases h : alistLookup m k <;> simp [h]
  | cons a l ih =>
    intro m k
    rw [List.foldl_cons, ih]
    by_cases hak : a = k
    · subst hak
      cases h : alistLookup m a with
      | some c =>
        have hb : alistLookup (bump m a) a = some (c + 1) := by
          simp [bump, h, alistLookup]
        rw [hb]
        simp [List.countP_cons]
        omega
      | none =>
        have hb : alistLookup (bump m a) a = some 0 := by
          simp [bump, h, alistLookup]
        rw [hb]
        simp [List.countP_cons]
    · rw [alistLookup_bump_ne m a k hak]
      have hdk : (decide (a = k) : Bool) = false := by simp [hak]
      simp only [List.countP_cons, hdk]
      cases h : alistLookup m k <;> simp [h]

/-- The counter of `BlockCellProvider::new` records, for an outpoint that
occurs `n ≥ 1` times among the block's inputs, the value `n − 1`. -/
theorem dupCounter_lookup (b : Block) (o : OutPoint) :
    alistLookup (dupCounter b) o =
      if occCount b o = 0 then none else some (occCount b o - 1) := by
  unfold dupCounter occCount
  rw [foldl_bump_lookup]
  simp [alistLookup]

/-- The output-index branch never answers `Dead`. -/
theorem outputLookup_ne_dead (b : Block) (o : OutPoint) :
    BlockCellProvider.outputLookup b o ≠ CellStatus.Dead := by
  unfold BlockCellProvider.outputLookup
  cases h1 : alistLookup (outputIndices b) o.tx_hash with
  | none => simp
  | some i =>
    cases h2 : b.transactions[i]? with
    | none => simp [h2]
    | some tx =>
      cases h3 : tx.outputs[o.index]? with
      | none => simp [h2, h3]
      | some x => simp [h2, h3, CellStatus.live_output]

/-- `cell` answers `Dead` exactly for outpoints spent at least twice
inside the block. -/
theorem cell_dead_iff (b : Block) (o : OutPoint) :
    BlockCellProvider.cell b o = CellStatus.Dead ↔ 2 ≤ occCount b o := by
  unfold BlockCellProvider.cell
  rw [dupCounter_lookup]
  have hne := outputLookup_ne_dead b o
  by_cases h0 : occCount b o = 0
  · rw [if_pos h0]
    rw [if_neg (by simp)]
    constructor
    · intro h; exact absurd h hne
    · intro h; exact absurd h (by omega)
  · rw [if_neg h0]
    by_cases h2 : 2 ≤ occCount b o
    · rw [if_pos (by simp; omega)]
      simp [h2]
    · rw [if_neg (by simp; omega)]
      constructor
      · intro h; exact absurd h hne
      · intro h; exact absurd h h2

/-- C1 (amended): the duplicate-input counter records `n − 1` for an
outpoint occurring `n ≥ 1` times (not `n` itself), and `cell` returns
`Dead` exactly when the outpoint is spent at least twice in the block; a
single in-block spend falls through to the output lookup. -/
theorem claim_C1 (b : Block) (o : OutPoint) :
    alistLookup (dupCounter b) o =
      (if occCount b o = 0 then none else some (occCount b o - 1))
  ∧ (BlockCellProvider.cell b o = CellStatus.Dead ↔ 2 ≤ occCount b o) :=
  ⟨dupCounter_lookup b o, cell_dead_iff b o⟩

/-- C1 counterexample: in a block whose single transaction spends `oEx`
exactly once, the counter records `0` (not the occurrence count `1`) and
`cell oEx` is `Unknown`, not `Dead`. -/
theorem claim_C1_counterexample :
    occCount blockSingleSpend oEx = 1
  ∧ alistLookup (dupCounter blockSingleSpend) oEx = some 0
  ∧ BlockCellProvider.cell blockSingleSpend oEx = CellStatus.Unknown := by
  refine ⟨by decide, by decide, by decide⟩

/-- C3: an outpoint spent by two or more inputs across the block's
transactions resolves to `Dead` under the block provider (both
occurrences query the same `cell`, so both see `Dead`). -/
theorem claim_C3 (b : Block) (o : OutPoint) (h : 2 ≤ occCount b o) :
    BlockCellProvider.cell b o = CellStatus.Dead :=
  (cell_dead_iff b o).mpr h

theorem claim_C3_witness :
    2 ≤ occCount blockDoubleSpend oEx
  ∧ BlockCellProvider.cell blockDoubleSpend oEx = CellStatus.Dead :=
  ⟨by decide, claim_C3 blockDoubleSpend oEx (by decide)⟩

/-! ## Failure model of the primitive reads -/

/-- C8 counterexample: on an engine whose read reports an I/O error,
`ChainKVStore::get` does not propagate a storage error to the caller; its
`expect` terminates the process. -/
theorem claim_C8_counterexample :
    ChainKVStore.get errDb Col.header [] = ReadOutcome.panic "db operation should be ok"
  ∧ ChainKVStore.get errDb Col.header [] ≠ ReadOutcome.storageError "io error" := by
  refine ⟨by decide, by decide⟩

/-- C8 (amended): key-absence is reported as an optional-absent value and
is never an error — both at the primitive reads and at a typed read — but
an engine error on a primitive read is not propagated: `get` and
`partial_get` unwrap it with `expect`, terminating the process. -/
theorem claim_C8 (db : DbModel) (c : Col) (k : Bytes) (s : Store) (hh : Nat) :
    (∀ v, db.read c k = Except.ok v → ChainKVStore.get db c k = ReadOutcome.val v)
  ∧ (∀ e, db.read c k = Except.error e →
        ChainKVStore.get db c k = ReadOutcome.panic "db operation should be ok")
  ∧ (∀ lo hi v, db.rangeRead c k lo hi = Except.ok v →
        ChainKVStore.rangeGet db c k lo hi = ReadOutcome.val v)
  ∧ (∀ lo hi e, db.rangeRead c k lo hi = Except.error e →
        ChainKVStore.rangeGet db c k lo hi = ReadOutcome.panic "db operation should be ok")
  ∧ (s Col.header (h256Key hh) = none → getHeader s hh = Except.ok none) := by
  refine ⟨?_, ?_, ?_, ?_, ?_⟩
  · intro v h; simp [ChainKVStore.get, h]
  · intro e h; simp [ChainKVStore.get, h]
  · intro lo hi v h; simp [ChainKVStore.rangeGet, h]
  · intro lo hi e h; simp [ChainKVStore.rangeGet, h]
  · intro h; simp [getHeader, h]

theorem claim_C8_witness :
    ChainKVStore.get errDb Col.body [] = ReadOutcome.panic "db operation should be ok"
  ∧ getHeader emptyStore 5 = Except.ok none :=
  ⟨(claim_C8 errDb Col.body [] emptyStore 5).2.1 "io error" rfl,
   (claim_C8 errDb Col.body [] emptyStore 5).2.2.2.2 rfl⟩

/-! ## The pool RPC -/

/-- C10: when the transaction verifies but is already in the pool
(`enqueue_tx` reports a duplicate), `send_transaction` still replies `Ok`
with the transaction's hash and does not broadcast; a broadcast happens
exactly when the transaction is newly enqueued. -/
theorem claim_C10 (cycles : Nat) (tx : Transaction) (pool : TxPool) :
    (pool.contains tx.hash = true →
        (sendTransaction (Except.ok cycles) tx pool).reply = Except.ok tx.hash
      ∧ (sendTransaction (Except.ok cycles) tx pool).broadcasted = false
      ∧ (sendTransaction (Except.ok cycles) tx pool).pool = pool)
  ∧ (pool.contains tx.hash = false →
        (sendTransaction (Except.ok cycles) tx pool).reply = Except.ok tx.hash
      ∧ (sendTransaction (Except.ok cycles) tx pool).broadcasted = true) := by
  constructor
  · intro h
    have hm : tx.hash ∈ pool := by simpa using h
    simp [sendTransaction, enqueueTx, hm]
  · intro h
    have hm : tx.hash ∉ pool := by simpa using h
    simp [sendTransaction, enqueueTx, hm]

theorem claim_C10_witness :
    (sendTransaction (Except.ok 7) txSingleSpend poolEx).reply
        = Except.ok txSingleSpend.hash
  ∧ (sendTransaction (Except.ok 7) txSingleSpend poolEx).broadcasted = false :=
  ⟨((claim_C10 7 txSingleSpend poolEx).1 (by decide)).1,
   ((claim_C10 7 txSingleSpend poolEx).1 (by decide)).2.1⟩

/-! ## Store round-trip -/

/-- Every flat-serialized chunk decodes back from its own window. -/
theorem decodeAll_map_enc (txs : List Transaction) :
    decodeAll (txs.map encTransaction) = some txs := by
  induction txs with
  | nil => rfl
  | cons t ts ih =>
    simp [decodeAll, decodeFull_encoded decTransaction encTransaction decTransaction_enc, ih]

/-- Slicing the concatenation of chunks at the cumulative windows returns
exactly the chunks. -/
theorem filterMap_slice_flat (cs : List Bytes) : ∀ pre : Bytes,
    (flatAddressesAux pre.length cs).filterMap (sliceOpt (pre ++ cs.flatten)) = cs := by
  induction cs with
  | nil => intro pre; simp [flatAddressesAux]
  | cons c cs ih =>
    intro pre
    simp only [flatAddressesAux, List.flatten_cons, List.filterMap_cons]
    have hslice :
        sliceOpt (pre ++ (c ++ cs.flatten)) { offset := pre.length, length := c.length }
          = some c := by
      unfold sliceOpt
      rw [if_pos (by simp [List.length_append])]
      simp only []
      rw [List.drop_left, List.take_left]
    rw [hslice]
    have htail := ih (pre ++ c)
    rw [List.length_append] at htail
    rw [List.append_assoc] at htail
    rw [htail]

theorem filterMap_slice_serialized (txs : List Transaction) :
    (serialized_addresses txs).filterMap
        (sliceOpt ((txs.map encTransaction).flatten)) = txs.map encTransaction := by
  have h := filterMap_slice_flat (txs.map encTransaction) []
  simpa [serialized_addresses] using h

/-- C6: inserting a block and committing makes `get_block` by the block's
hash return the block itself — header, uncles, the transactions
reconstructed from the flat-packed body through the stored address
windows, and the proposal ids all round-trip. -/
theorem claim_C6 (s : Store) (b : Block) :
    getBlock (commit s (insertBlock b)) b.header.hash = Except.ok (some b) := by
  have hH : commit s (insertBlock b) Col.header (h256Key b.header.hash)
      = some (encHeader b.header) := by
    simp [commit, insertBlock, applyOp, storeInsert]
  have hU : commit s (insertBlock b) Col.uncle (h256Key b.header.hash)
      = some (encList encUncle b.uncles) := by
    simp [commit, insertBlock, applyOp, storeInsert]
  have hP : commit s (insertBlock b) Col.proposalIds (h256Key b.header.hash)
      = some (encList encNat b.proposals) := by
    simp [commit, insertBlock, applyOp, storeInsert]
  have hB : commit s (insertBlock b) Col.body (h256Key b.header.hash)
      = some ((b.transactions.map encTransaction).flatten) := by
    simp [commit, insertBlock, applyOp, storeInsert, flat_serialize]
  have hA : commit s (insertBlock b) Col.bodyAddrs (h256Key b.header.hash)
      = some (encList encAddress (serialized_addresses b.transactions)) := by
    simp [commit, insertBlock, applyOp, storeInsert, flat_serialize]
  have hgh : getHeader (commit s (insertBlock b)) b.header.hash
      = Except.ok (some b.header) := by
    simp [getHeader, hH, decodeFull_encoded decHeader encHeader decHeader_enc]
  have hgu : getBlockUncles (commit s (insertBlock b)) b.header.hash
      = Except.ok (some b.uncles) := by
    simp [getBlockUncles, hU,
      decodeFull_encoded (decList decUncle) (encList encUncle)
        (decList_encList decUncle encUncle decUncle_enc)]
  have hgp : getBlockProposalTxsIds (commit s (insertBlock b)) b.header.hash
      = Except.ok (some b.proposals) := by
    simp [getBlockProposalTxsIds, hP,
      decodeFull_encoded (decList decNat) (encList encNat)
        (decList_encList decNat encNat decNat_encNat)]
  have hgb : getBlockBody (commit s (insertBlock b)) b.header.hash
      = Except.ok (some b.transactions) := by
    simp [getBlockBody, hA, hB,
      decodeFull_encoded (decList decAddress) (encList encAddress)
        (decList_encList decAddress encAddress decAddress_enc),
      filterMap_slice_serialized, decodeAll_map_enc]
  simp [getBlock, hgh, hgu, hgp, hgb]

/-! ## Totality of `get_block_body` over stored bytes -/

theorem decodeAll_length : ∀ (bs : List Bytes) (ts : List Transaction),
    decodeAll bs = some ts → ts.length = bs.length := by
  intro bs
  induction bs with
  | nil =>
    intro ts h
    simp [decodeAll] at h
    simp [← h]
  | cons c cs ih =>
    intro ts h
    simp only [decodeAll] at h
    cases hd : decodeFull decTransaction c with
    | none => rw [hd] at h; simp at h
    | some t =>
      rw [hd] at h
      cases hrest : decodeAll cs with
      | none => rw [hrest] at h; simp at h
      | some ts' =>
        rw [hrest] at h
        simp at h
        rw [← h]
        simp [ih ts' hrest]

theorem filterMap_sliceOpt_length (body : Bytes) (addrs : List Address) :
    (addrs.filterMap (sliceOpt body)).length
      = addrs.countP (fun a => decide (a.offset + a.length ≤ body.length)) := by
  induction addrs with
  | nil => rfl
  | cons a l ih =>
    by_cases h : a.offset + a.length ≤ body.length
    · simp [List.filterMap_cons, sliceOpt, h, List.countP_cons, ih]
    · simp [List.filterMap_cons, sliceOpt, h, List.countP_cons, ih]

/-- C9: `get_block_body` is total over whatever bytes are stored: a
recorded address window that falls outside the stored body is silently
skipped (no failure, no abort), the result containing exactly the
transactions of the in-range windows — possibly fewer than the address
vector records. -/
theorem claim_C9 (s : Store) (h : Nat) (addrs : List Address) (body : Bytes)
    (txs : List Transaction)
    (hA : s Col.bodyAddrs (h256Key h) = some (encList encAddress addrs))
    (hB : s Col.body (h256Key h) = some body)
    (hD : decodeAll (addrs.filterMap (sliceOpt body)) = some txs) :
    getBlockBody s h = Except.ok (some txs)
  ∧ txs.length = addrs.countP (fun a => decide (a.offset + a.length ≤ body.length))
  ∧ txs.length ≤ addrs.length := by
  refine ⟨?_, ?_, ?_⟩
  · simp [getBlockBody, hA, hB,
      decodeFull_encoded (decList decAddress) (encList encAddress)
        (decList_encList decAddress encAddress decAddress_enc), hD]
  · rw [decodeAll_length _ _ hD, filterMap_sliceOpt_length]
  · rw [decodeAll_length _ _ hD]
    exact List.length_filterMap_le _ _

theorem claim_C9_witness :
    getBlockBody storeBodyEx 77 = Except.ok (some [txSingleSpend])
  ∧ (1 : Nat) < addrsEx.length :=
  ⟨(claim_C9 storeBodyEx 77 addrsEx bodyEx [txSingleSpend]
      (by decide) (by decide) (by decide)).1,
   by decide⟩

/-! ## Attach / detach -/

theorem applyOp_untouched (s : Store) (op : BatchOp) (c : Col) (k : Bytes)
    (h : opTouches op c k = false) : applyOp s op c k = s c k := by
  cases op with
  | ins c' k' v =>
    simp only [opTouches, Bool.and_eq_false_iff, decide_eq_false_iff_not] at h
    simp only [applyOp, storeInsert]
    have hne : ¬(c = c' ∧ k = k') := by
      intro hc
      rcases h with h | h
      · exact h hc.1.symm
      · exact h hc.2.symm
    rw [if_neg hne]
  | del c' k' =>
    simp only [opTouches, Bool.and_eq_false_iff, decide_eq_false_iff_not] at h
    simp only [applyOp, storeDelete]
    have hne : ¬(c = c' ∧ k = k') := by
      intro hc
      rcases h with h | h
      · exact h hc.1.symm
      · exact h hc.2.symm
    rw [if_neg hne]

theorem commit_untouched : ∀ (ops : List BatchOp) (s : Store) (c : Col) (k : Bytes),
    (∀ op ∈ ops, opTouches op c k = false) → commit s ops c k = s c k := by
  intro ops
  induction ops with
  | nil => intro s c k _; rfl
  | cons op ops ih =>
    intro s c k h
    have h1 : opTouches op c k = false := h op (List.mem_cons_self op ops)
    have h2 : ∀ op' ∈ ops, opTouches op' c k = false :=
      fun op' hm => h op' (List.mem_cons_of_mem op hm)
    show commit (applyOp s op) ops c k = s c k
    rw [ih (applyOp s op) c k h2, applyOp_untouched s op c k h1]

theorem commit_append (s : Store) (xs ys : List BatchOp) :
    commit s (xs ++ ys) = commit (commit s xs) ys := by
  simp [commit, List.foldl_append]

theorem commit_dels_lookup (c₀ : Col) (keys : List Bytes) : ∀ (s : Store) (k : Bytes),
    commit s (keys.map (BatchOp.del c₀)) c₀ k = if k ∈ keys then none else s c₀ k := by
  induction keys with
  | nil => intro s k; simp [commit]
  | cons k0 ks ih =>
    intro s k
    show commit (applyOp s (BatchOp.del c₀ k0)) (ks.map (BatchOp.del c₀)) c₀ k = _
    rw [ih]
    by_cases hk : k ∈ ks
    · simp [hk]
    · rw [if_neg hk]
      by_cases he : k = k0
      · subst he
        simp [applyOp, storeDelete, List.mem_cons, hk]
      · simp [applyOp, storeDelete, he, List.mem_cons, hk]

/-- The keys `detach_block` touches, spelled out. -/
theorem detachTouches_true_iff (b : Block) (c : Col) (k : Bytes) :
    detachTouches b c k = true ↔
      (c = Col.txAddr ∧ ∃ tx ∈ b.transactions, k = h256Key tx.hash)
    ∨ (c = Col.index ∧
        (k = numberKey b.header.number ∨ k = h256Key b.header.hash)) := by
  unfold detachTouches
  simp only [Bool.or_eq_true, Bool.and_eq_true, decide_eq_true_eq, List.any_eq_true,
    List.mem_map]
  constructor
  · rintro (⟨hc, kk, ⟨tx, htx, rfl⟩, hkk⟩ | ⟨hc, hk | hk⟩)
    · exact Or.inl ⟨hc, tx, htx, hkk.symm⟩
    · exact Or.inr ⟨hc, Or.inl hk⟩
    · exact Or.inr ⟨hc, Or.inr hk⟩
  · rintro (⟨hc, tx, htx, rfl⟩ | ⟨hc, hk | hk⟩)
    · exact Or.inl ⟨hc, h256Key tx.hash, ⟨tx, htx, rfl⟩, rfl⟩
    · exact Or.inr ⟨hc, Or.inl hk⟩
    · exact Or.inr ⟨hc, Or.inr hk⟩

/-- Every write of `attach_block` lands on a key that `detach_block`
touches (the same `TX_ADDR` and `INDEX` keys). -/
theorem attach_ops_touch (b : Block) (c : Col) (k : Bytes) (op : BatchOp)
    (hop : op ∈ attachBlock b) (ht : opTouches op c k = true) :
    detachTouches b c k = true := by
  rw [detachTouches_true_iff]
  unfold attachBlock at hop
  rcases List.mem_append.mp hop with hm | hm
  · rcases List.mem_map.mp hm with ⟨p, hp, rfl⟩
    have htx : p.1 ∈ b.transactions := (List.of_mem_zip hp).1
    simp only [opTouches, Bool.and_eq_true, decide_eq_true_eq] at ht
    exact Or.inl ⟨ht.1.symm, p.1, htx, ht.2.symm⟩
  · simp only [List.mem_cons, List.mem_singleton] at hm
    rcases hm with rfl | rfl | h
    · simp only [opTouches, Bool.and_eq_true, decide_eq_true_eq] at ht
      exact Or.inr ⟨ht.1.symm, Or.inl ht.2.symm⟩
    · simp only [opTouches, Bool.and_eq_true, decide_eq_true_eq] at ht
      exact Or.inr ⟨ht.1.symm, Or.inr ht.2.symm⟩
    · cases h

/-- Every delete of `detach_block` lands on a key that `detachTouches`
describes. -/
theorem detach_ops_touch (b : Block) (c : Col) (k : Bytes) (op : BatchOp)
    (hop : op ∈ detachBlock b) (ht : opTouches op c k = true) :
    detachTouches b c k = true := by
  rw [detachTouches_true_iff]
  unfold detachBlock at hop
  rcases List.mem_append.mp hop with hm | hm
  · rcases List.mem_map.mp hm with ⟨tx, htx, rfl⟩
    simp only [opTouches, Bool.and_eq_true, decide_eq_true_eq] at ht
    exact Or.inl ⟨ht.1.symm, tx, htx, ht.2.symm⟩
  · simp only [List.mem_cons, List.mem_singleton] at hm
    rcases hm with rfl | rfl | h
    · simp only [opTouches, Bool.and_eq_true, decide_eq_true_eq] at ht
      exact Or.inr ⟨ht.1.symm, Or.inl ht.2.symm⟩
    · simp only [opTouches, Bool.and_eq_true, decide_eq_true_eq] at ht
      exact Or.inr ⟨ht.1.symm, Or.inr ht.2.symm⟩
    · cases h

/-- Committed `detach_block` erases exactly its touched keys. -/
theorem detach_commit_touched (b : Block) (s' : Store) (c : Col) (k : Bytes)
    (h : detachTouches b c k = true) : commit s' (detachBlock b) c k = none := by
  rcases (detachTouches_true_iff b c k).mp h with ⟨rfl, tx, htx, rfl⟩ | ⟨rfl, hk⟩
  · unfold detachBlock
    rw [commit_append]
    rw [commit_untouched _ _ _ _ (by
      intro op hop
      simp only [List.mem_cons, List.mem_singleton] at hop
      rcases hop with rfl | rfl | h
      · simp [opTouches]
      · simp [opTouches]
      · cases h)]
    have hmap : (b.transactions.map fun tx => BatchOp.del Col.txAddr (h256Key tx.hash))
        = (b.transactions.map fun tx => h256Key tx.hash).map (BatchOp.del Col.txAddr) := by
      rw [List.map_map]
      rfl
    rw [hmap, commit_dels_lookup]
    rw [if_pos (List.mem_map.mpr ⟨tx, htx, rfl⟩)]
  · unfold detachBlock
    rw [commit_append]
    set s1 := commit s'
      (b.transactions.map fun tx => BatchOp.del Col.txAddr (h256Key tx.hash)) with hs1
    show applyOp (applyOp s1 (BatchOp.del Col.index (numberKey b.header.number)))
        (BatchOp.del Col.index (h256Key b.header.hash)) Col.index k = none
    simp only [applyOp, storeDelete]
    by_cases h2 : k = h256Key b.header.hash
    · rw [if_pos (by simp [h2])]
    · rw [if_neg (by simp [h2])]
      rcases hk with hk | hk
      · rw [if_pos (by simp [hk])]
      · exact absurd hk h2

/-- Committed `detach_block` leaves every other key unchanged. -/
theorem detach_commit_untouched (b : Block) (s' : Store) (c : Col) (k : Bytes)
    (h : detachTouches b c k = false) : commit s' (detachBlock b) c k = s' c k := by
  refine commit_untouched _ _ _ _ (fun op hop => ?_)
  cases hT : opTouches op c k with
  | false => rfl
  | true => rw [detach_ops_touch b c k op hop hT] at h; cases h

/-- C7 (amended): provided the keys `attach_block b` writes — the
`TX_ADDR` entries of `b`'s transactions and both `INDEX` entries — are
absent beforehand, attach followed by detach restores the entire store
pointwise; unconditionally, committed `detach_block` deletes exactly the
`TX_ADDR` entries of `b`'s transactions and the two `INDEX` entries,
leaving every other column and key (HEADER, UNCLE, PROPOSAL_IDS, BODY,
BODY_ADDRS, EXT, META and untouched keys) unchanged. -/
theorem claim_C7 (b : Block) (s : Store)
    (hTx : ∀ tx ∈ b.transactions, s Col.txAddr (h256Key tx.hash) = none)
    (hN : s Col.index (numberKey b.header.number) = none)
    (hHs : s Col.index (h256Key b.header.hash) = none) :
    (∀ c k, commit (commit s (attachBlock b)) (detachBlock b) c k = s c k)
  ∧ (∀ (s' : Store) c k, detachTouches b c k = false →
        commit s' (detachBlock b) c k = s' c k)
  ∧ (∀ (s' : Store) c k, detachTouches b c k = true →
        commit s' (detachBlock b) c k = none) := by
  refine ⟨?_, fun s' c k h => detach_commit_untouched b s' c k h,
    fun s' c k h => detach_commit_touched b s' c k h⟩
  intro c k
  cases hd : detachTouches b c k with
  | true =>
    rw [detach_commit_touched b _ c k hd]
    rcases (detachTouches_true_iff b c k).mp hd with ⟨rfl, tx, htx, rfl⟩ | ⟨rfl, hk⟩
    · exact (hTx tx htx).symm
    · rcases hk with rfl | rfl
      · exact hN.symm
      · exact hHs.symm
  | false =>
    rw [detach_commit_untouched b _ c k hd]
    refine commit_untouched _ _ _ _ (fun op hop => ?_)
    cases hT : opTouches op c k with
    | false => rfl
    | true => rw [attach_ops_touch b c k op hop hT] at hd; cases hd

/-- C7 counterexample: over a store that already holds a `TX_ADDR` entry
for the block's transaction, attach-then-detach does not restore the
pre-attach state — the pre-existing entry is deleted. -/
theorem claim_C7_counterexample :
    commit (commit storePreTxAddr (attachBlock blockEx)) (detachBlock blockEx)
        Col.txAddr (h256Key txSingleSpend.hash) = none
  ∧ storePreTxAddr Col.txAddr (h256Key txSingleSpend.hash) = some [42] := by
  refine ⟨by decide, by decide⟩

theorem claim_C7_witness :
    commit (commit emptyStore (attachBlock blockEx)) (detachBlock blockEx)
        Col.header (h256Key blockEx.header.hash)
      = emptyStore Col.header (h256Key blockEx.header.hash) :=
  (claim_C7 blockEx emptyStore (fun _ _ => rfl) rfl rfl).1
    Col.header (h256Key blockEx.header.hash)

end Ckb
